import Mathlib

/-!
Verification of the `nessus-launcher` library (shallow embedding).

The definitions below are translated from the Rust sources:

* `src/error.rs`   — the `NessusError` taxonomy;
* `src/client.rs`  — token extraction (`get_x_api_token`, lines 79–92),
  the single launch attempt (`launch_scan_once`, lines 165–175), the
  per-scan retry wrapper built from `tokio_retry`
  (`ExponentialBackoff::from_millis(500).max_delay(10 s).take(5)` driven
  by `Retry::spawn`, lines 204–212), and the batch orchestrator
  (`launch_scans_parallel`, lines 187–228).

Strings are modelled as `List Char`; machine integers (`u64` millisecond
counts in `tokio_retry`) as `Nat` with explicit saturation at `2 ^ 64 - 1`
where the Rust code uses `checked_mul`.  Network traffic is modelled by an
environment (`BatchEnv`) of oracles giving the outcome of each HTTP
request, and the observable behaviour of a batch is recorded as a list of
events (network calls and log lines).
-/

set_option maxHeartbeats 1000000

namespace NessusLauncher

/-- The error type of the library, from `src/error.rs`.  `Http` stands for
`NessusError::Http(reqwest::Error)` (the transport error rendered as a
message), `Json` for `NessusError::Json`, `Config` and `Io` likewise, and
`Other` carries the human-readable message of `NessusError::Other`.  In the
specification's taxonomy, the `Other` messages produced by token extraction
and by a failed launch play the roles of ParseError and LaunchError. -/
inductive NessusError where
  | Http (e : String)
  | Json (e : String)
  | Config (msg : String)
  | Io (e : String)
  | Other (msg : String)
deriving DecidableEq

deriving instance DecidableEq for Except

/-- Whether the character list `p` occurs at the very start of `l`
(the position check performed by Rust's string pattern matcher). -/
def startsWith : List Char → List Char → Bool
  | [], _ => true
  | _ :: _, [] => false
  | p :: ps, c :: cs => p == c && startsWith ps cs

/-- The leftmost occurrence of the separator `sep` in `l`: returns
`some (pre, post)` where `l = pre ++ sep ++ post` and `pre` contains no
occurrence of `sep`, or `none` when `sep` does not occur in `l`.  This is
the step a single iteration of Rust's `str::split` performs. -/
def splitFirst (sep : List Char) : List Char → Option (List Char × List Char)
  | [] => none
  | c :: cs =>
    if startsWith sep (c :: cs) then some ([], (c :: cs).drop sep.length)
    else
      match splitFirst sep cs with
      | none => none
      | some (pre, post) => some (c :: pre, post)

/-- Fuelled worker for `rustSplit`; the fuel only serves to make the
recursion structural, `rustSplit_eq` below recovers the natural
recursion equation. -/
def splitGo (sep : List Char) : Nat → List Char → List (List Char)
  | 0, l => [l]
  | fuel + 1, l =>
    match splitFirst sep l with
    | none => [l]
    | some (pre, post) => pre :: splitGo sep fuel post

/-- Rust's `str::split` with a non-empty pattern `sep`, on a string `l`:
the list of fragments between consecutive non-overlapping leftmost
occurrences of `sep` (the separator itself removed).  `"a:b".split(':')`
gives `["a", "b"]`, an empty input gives `[""]`. -/
def rustSplit (sep : List Char) (l : List Char) : List (List Char) :=
  splitGo sep l.length l

/-- Rust's `str::contains` with a string pattern: does `pat` occur as a
contiguous subsequence of `l`? -/
def containsSeq (pat : List Char) : List Char → Bool
  | [] => pat.isEmpty
  | c :: cs => startsWith pat (c :: cs) || containsSeq pat cs

/-- The literal substring searched for by `get_x_api_token`. -/
def apiTokenPat : List Char := "getApiToken".data

/-- The parsing half of `NessusClient::get_x_api_token`
(`src/client.rs` lines 79–92), as a function of the fetched body of
`nessus6.js`: split the body on `:"`, find the first fragment containing
`getApiToken`, split that fragment on `"`, and return its element at
index 2; error out (with the messages of the Rust code) when no fragment
matches or the secondary split has fewer than three elements. -/
def get_x_api_token (body : List Char) : Except NessusError (List Char) :=
  let parts := rustSplit [':', '"'] body
  match parts.find? (fun s => containsSeq apiTokenPat s) with
  | none => Except.error (NessusError.Other "getApiToken not found in nessus6.js")
  | some token_part =>
    let vec3 := rustSplit ['"'] token_part
    if h : vec3.length < 3 then
      Except.error (NessusError.Other "Unexpected format while parsing X-API token")
    else
      Except.ok (vec3.get ⟨2, by omega⟩)

/-- The largest `u64` value; `tokio_retry` computes its delays in `u64`
milliseconds with `checked_mul`, falling back to `u64::MAX` on overflow. -/
def u64max : Nat := 2 ^ 64 - 1

/-- `u64::checked_mul`, with the `None` case already collapsed to
`u64::MAX` as both call sites of `tokio_retry`'s iterator do. -/
def checkedMul (a b : Nat) : Nat :=
  if a * b ≤ u64max then a * b else u64max

/-- The state of `tokio_retry::strategy::ExponentialBackoff` (delays in
milliseconds; `maxDelay` is the optional cap installed by the `max_delay`
builder). -/
structure ExponentialBackoff where
  current : Nat
  base : Nat
  factor : Nat
  maxDelay : Option Nat
deriving DecidableEq

/-- `ExponentialBackoff::from_millis(base)`: the first delay is `base`
milliseconds and every `next` multiplies the stored value by `base`. -/
def ExponentialBackoff.from_millis (base : Nat) : ExponentialBackoff :=
  { current := base, base := base, factor := 1, maxDelay := none }

/-- The `max_delay` builder of `ExponentialBackoff`. -/
def ExponentialBackoff.max_delay (eb : ExponentialBackoff) (d : Nat) : ExponentialBackoff :=
  { eb with maxDelay := some d }

/-- One step of the `Iterator` implementation of `ExponentialBackoff`:
the yielded delay is `current * factor` (saturated at `u64::MAX`); if a
cap is installed and the delay exceeds it, the cap is returned and the
state is left untouched; otherwise `current` is multiplied by `base`
(again saturated) before the delay is returned. -/
def ExponentialBackoff.next (eb : ExponentialBackoff) : Nat × ExponentialBackoff :=
  let duration := checkedMul eb.current eb.factor
  match eb.maxDelay with
  | some md =>
    if md < duration then (md, eb)
    else (duration, { eb with current := checkedMul eb.current eb.base })
  | none => (duration, { eb with current := checkedMul eb.current eb.base })

/-- Observable trace of one `Retry::spawn` invocation: its final result,
how many times the wrapped operation was called, and the backoff delays
(in milliseconds) slept between consecutive calls, in order. -/
structure RetryTrace (ε α : Type) where
  result : Except ε α
  calls : Nat
  delays : List Nat
deriving DecidableEq

/-- The loop of `tokio_retry::Retry::spawn`: run the operation; on
success stop; on failure ask the strategy iterator for the next delay —
if the `take` budget (`remaining`) is exhausted return the failure,
otherwise sleep that delay and run the operation again.  `action k` is
the outcome of the `(k + 1)`-th underlying call. -/
def retryGo (action : Nat → Except ε α) : Nat → ExponentialBackoff → Nat → RetryTrace ε α
  | remaining, eb, k =>
    match action k with
    | Except.ok a => { result := Except.ok a, calls := 1, delays := [] }
    | Except.error e =>
      match remaining with
      | 0 => { result := Except.error e, calls := 1, delays := [] }
      | r + 1 =>
        let p := eb.next
        let rest := retryGo action r p.2 (k + 1)
        { result := rest.result, calls := rest.calls + 1, delays := p.1 :: rest.delays }

/-- The strategy built in `launch_scans_parallel` (`src/client.rs`
lines 205–207): `ExponentialBackoff::from_millis(500)`, capped by
`max_delay(Duration::from_secs(10))` — 10000 milliseconds. -/
def defaultStrategy : ExponentialBackoff :=
  (ExponentialBackoff.from_millis 500).max_delay 10000

/-- The per-scan retry wrapper of `launch_scans_parallel`:
`Retry::spawn` over `defaultStrategy.take(5)` applied to one launch
operation. -/
def launchRetry (action : Nat → Except ε α) : RetryTrace ε α :=
  retryGo action 5 defaultStrategy 0

/-- `NessusClient::launch_scan_once` (`src/client.rs` lines 165–175)
after the POST has produced a response with the given status code:
`Ok(())` when `status.is_success()` (a 2xx code), otherwise
`NessusError::Other` carrying the scan id and the status (rendered here
by its numeric code; `reqwest` additionally appends the canonical reason
phrase for well-known codes). -/
def launch_scan_once (scan_id : Nat) (status : Nat) : Except NessusError Unit :=
  if 200 ≤ status ∧ status < 300 then Except.ok ()
  else
    Except.error (NessusError.Other
      ("Scan " ++ toString scan_id ++ " launch failed with status " ++ toString status))

/-- Whether a spawned per-scan task runs to completion or its
`JoinHandle` resolves to a `JoinError` (an execution-layer fault). -/
inductive TaskFate where
  | completes
  | aborts (msg : String)
deriving DecidableEq

/-- The environment a batch runs against: the outcome of each HTTP
request the client may issue.  `fetchBody` is the transport outcome of
`GET <host>/nessus6.js` (error message, or response text); `login` is an
oracle for the whole `POST <host>/session` exchange given the extracted
X-API token — its internals (JSON body and `token`-field parsing) are
not needed by any claim and stay abstract; `response scan_id k` is the
transport outcome of the `(k + 1)`-th `POST <host>/scans/<id>/launch`
for that scan (error message, or HTTP status code); `fate scan_id` says
whether that scan's spawned task joins cleanly. -/
structure BatchEnv where
  fetchBody : Except String (List Char)
  login : List Char → Except NessusError (List Char)
  response : Nat → Nat → Except String Nat
  fate : Nat → TaskFate

/-- The observable events of one batch, in the order the orchestrator's
own structure produces them (concurrent execution may interleave the
per-scan blocks; every property stated below is invariant under such
permutations): network calls (`fetchToken` = the GET of `nessus6.js`,
`login` = the POST to `/session`, `launch` = one POST to
`/scans/<id>/launch` with the credentials it carried) and log lines
(`logEmpty` = the empty-batch `info!`, `logSuccess`/`logFailure` = the
per-task `info!`/`error!`, `logJoinError` = the `error!` of the join
loop). -/
inductive Event where
  | fetchToken
  | login
  | launch (scan_id : Nat) (attempt : Nat) (x_api_token : List Char) (x_cookie : List Char)
  | logEmpty
  | logSuccess (scan_id : Nat)
  | logFailure (scan_id : Nat) (e : NessusError)
  | logJoinError (scan_id : Nat) (msg : String)
deriving DecidableEq

/-- Is the event a network call (any of the three HTTP requests)? -/
def Event.isNetwork : Event → Bool
  | Event.fetchToken => true
  | Event.login => true
  | Event.launch _ _ _ _ => true
  | _ => false

/-- Is the event a launch POST? -/
def Event.isLaunch : Event → Bool
  | Event.launch _ _ _ _ => true
  | _ => false

/-- Outcome of the `(k + 1)`-th launch attempt for `scan_id`: a transport
failure surfaces as `NessusError::Http` through the `?` operator on
`send()`, a response goes through `launch_scan_once`'s status check. -/
def attemptOutcome (env : BatchEnv) (scan_id : Nat) (k : Nat) : Except NessusError Unit :=
  match env.response scan_id k with
  | Except.error e => Except.error (NessusError.Http e)
  | Except.ok status => launch_scan_once scan_id status

/-- The events contributed by the spawned task of one scan (and by the
join loop observing it): a task that aborts yields the join-loop error
line (its partial network activity is not modelled); a task that
completes performs `launchRetry` — one launch POST per underlying call,
each carrying the shared credentials — and then logs its terminal
outcome. -/
def scanTaskEvents (env : BatchEnv) (tok cookie : List Char) (scan_id : Nat) : List Event :=
  match env.fate scan_id with
  | TaskFate.aborts msg => [Event.logJoinError scan_id msg]
  | TaskFate.completes =>
    let trace := launchRetry (attemptOutcome env scan_id)
    ((List.range trace.calls).map (fun k => Event.launch scan_id k tok cookie)) ++
      (match trace.result with
       | Except.ok _ => [Event.logSuccess scan_id]
       | Except.error e => [Event.logFailure scan_id e])

/-- The whole of `NessusClient::get_x_api_token` (network fetch of
`nessus6.js` followed by the parse): the `?` operator turns a transport
failure into `NessusError::Http`. -/
def fetchApiToken (env : BatchEnv) : Except NessusError (List Char) :=
  match env.fetchBody with
  | Except.error e => Except.error (NessusError.Http e)
  | Except.ok body => get_x_api_token body

/-- The `format!("token=...")` prefix of the `X-Cookie` header value. -/
def cookiePrefix : List Char := "token=".data

/-- `NessusClient::launch_scans_parallel` (`src/client.rs`
lines 187–228): empty input is an immediate no-op success; otherwise the
API token is fetched and the session established once — either failure
is returned to the caller before any task is spawned — and then one
retry-wrapped launch task runs per scan id, all outcomes being logged;
the call itself returns `Ok(())` once every task has been joined. -/
def launch_scans_parallel (env : BatchEnv) (scan_ids : List Nat) :
    Except NessusError Unit × List Event :=
  if scan_ids.isEmpty then (Except.ok (), [Event.logEmpty])
  else
    match fetchApiToken env with
    | Except.error e => (Except.error e, [Event.fetchToken])
    | Except.ok x_api_token =>
      match env.login x_api_token with
      | Except.error e => (Except.error e, [Event.fetchToken, Event.login])
      | Except.ok session_token =>
        let x_cookie := cookiePrefix ++ session_token
        (Except.ok (),
          Event.fetchToken :: Event.login ::
            (scan_ids.map (scanTaskEvents env x_api_token x_cookie)).flatten)

/-! ### Structural lemmas about the split machinery -/

theorem startsWith_iff (p : List Char) : ∀ l, startsWith p l = true ↔ p <+: l := by
  induction p with
  | nil =>
    intro l
    simp only [startsWith]
    exact ⟨fun _ => ⟨l, rfl⟩, fun _ => trivial⟩
  | cons a ps ih =>
    intro l
    cases l with
    | nil => simp [startsWith]
    | cons c cs => simp [startsWith, List.cons_prefix_cons, ih cs, and_comm]

theorem splitFirst_post_length {c : Char} {sep : List Char} :
    ∀ {l pre post : List Char}, splitFirst (c :: sep) l = some (pre, post) →
      post.length < l.length := by
  intro l
  induction l with
  | nil => intro pre post h; simp [splitFirst] at h
  | cons x xs ih =>
    intro pre post h
    rw [splitFirst] at h
    split at h
    · simp only [Option.some.injEq, Prod.mk.injEq] at h
      obtain ⟨_, hpost⟩ := h
      subst hpost
      simp only [List.length_drop, List.length_cons]
      omega
    · split at h
      · exact absurd h (by simp)
      · next pre' post' heq =>
        simp only [Option.some.injEq, Prod.mk.injEq] at h
        obtain ⟨_, hpost⟩ := h
        subst hpost
        have := ih heq
        simp only [List.length_cons]
        omega

theorem splitFirst_append {sep : List Char} :
    ∀ {l pre post : List Char}, splitFirst sep l = some (pre, post) →
      l = pre ++ sep ++ post := by
  intro l
  induction l with
  | nil => intro pre post h; simp [splitFirst] at h
  | cons x xs ih =>
    intro pre post h
    rw [splitFirst] at h
    split at h
    · next hs =>
      simp only [Option.some.injEq, Prod.mk.injEq] at h
      obtain ⟨hpre, hpost⟩ := h
      subst hpre
      subst hpost
      have hp : sep <+: (x :: xs) := (startsWith_iff sep (x :: xs)).1 hs
      have := List.prefix_iff_eq_append.1 hp
      simpa using this.symm
    · split at h
      · exact absurd h (by simp)
      · next pre' post' heq =>
        simp only [Option.some.injEq, Prod.mk.injEq] at h
        obtain ⟨hpre, hpost⟩ := h
        subst hpre
        subst hpost
        have := ih heq
        simp [this]

theorem splitGo_of_none {sep l : List Char} (h : splitFirst sep l = none) :
    ∀ fuel, splitGo sep fuel l = [l] := by
  intro fuel
  cases fuel with
  | zero => rfl
  | succ f => simp [splitGo, h]

theorem splitGo_stable (c : Char) (sep : List Char) :
    ∀ (n : Nat) (l : List Char) (fuel : Nat), l.length ≤ n → l.length ≤ fuel →
      splitGo (c :: sep) fuel l = splitGo (c :: sep) l.length l := by
  intro n
  induction n with
  | zero =>
    intro l fuel hn _
    have hl : l = [] := List.length_eq_zero.mp (Nat.le_zero.mp hn)
    subst hl
    cases fuel with
    | zero => rfl
    | succ f => simp [splitGo, splitFirst]
  | succ n ih =>
    intro l fuel hn hf
    cases hsf : splitFirst (c :: sep) l with
    | none => rw [splitGo_of_none hsf, splitGo_of_none hsf]
    | some pp =>
      obtain ⟨pre, post⟩ := pp
      have hlt : post.length < l.length := splitFirst_post_length hsf
      obtain ⟨m, hm⟩ : ∃ m, l.length = m + 1 := ⟨l.length - 1, by omega⟩
      obtain ⟨f, hfe⟩ : ∃ f, fuel = f + 1 := ⟨fuel - 1, by omega⟩
      subst hfe
      rw [hm]
      simp only [splitGo, hsf]
      congr 1
      rw [ih post f (by omega) (by omega), ih post m (by omega) (by omega)]

theorem rustSplit_eq (c : Char) (sep : List Char) (l : List Char) :
    rustSplit (c :: sep) l =
      match splitFirst (c :: sep) l with
      | none => [l]
      | some (pre, post) => pre :: rustSplit (c :: sep) post := by
  cases hsf : splitFirst (c :: sep) l with
  | none => simp [rustSplit, splitGo_of_none hsf]
  | some pp =>
    obtain ⟨pre, post⟩ := pp
    have hlt : post.length < l.length := splitFirst_post_length hsf
    obtain ⟨m, hm⟩ : ∃ m, l.length = m + 1 := ⟨l.length - 1, by omega⟩
    simp only [rustSplit, hm, splitGo, hsf]
    congr 1
    exact splitGo_stable c sep m post m (by omega) (by omega)

theorem rustSplit_frag_within (c : Char) (sep : List Char) :
    ∀ (n : Nat) (l frag : List Char), l.length ≤ n →
      frag ∈ rustSplit (c :: sep) l → frag <:+: l := by
  intro n
  induction n with
  | zero =>
    intro l frag hn hmem
    have hl : l = [] := List.length_eq_zero.mp (Nat.le_zero.mp hn)
    subst hl
    simp only [rustSplit, List.length_nil, splitGo, List.mem_singleton] at hmem
    subst hmem
    exact List.infix_rfl
  | succ n ih =>
    intro l frag hn hmem
    rw [rustSplit_eq] at hmem
    cases hsf : splitFirst (c :: sep) l with
    | none =>
      rw [hsf] at hmem
      simp only [List.mem_singleton] at hmem
      subst hmem
      exact List.infix_rfl
    | some pp =>
      obtain ⟨pre, post⟩ := pp
      rw [hsf] at hmem
      have heq : l = pre ++ (c :: sep) ++ post := splitFirst_append hsf
      simp only [List.mem_cons] at hmem
      rcases hmem with rfl | hmem
      · exact ⟨[], (c :: sep) ++ post, by simp [heq]⟩
      · have h1 : frag <:+: post :=
          ih post frag (by have := splitFirst_post_length hsf; omega) hmem
        have h2 : post <:+: l := ⟨pre ++ (c :: sep), [], by simp [heq]⟩
        exact h1.trans h2

theorem containsSeq_iff (pat : List Char) : ∀ l, containsSeq pat l = true ↔ pat <:+: l := by
  intro l
  induction l with
  | nil => simp [containsSeq, List.isEmpty_iff]
  | cons x xs ih =>
    simp [containsSeq, startsWith_iff, ih, List.infix_cons_iff]

/-! ### The delay stream of a strategy and the shape of a batch -/

/-- The first `r` delays a strategy iterator yields, in order. -/
def ebDelays : ExponentialBackoff → Nat → List Nat
  | _, 0 => []
  | eb, r + 1 => (eb.next).1 :: ebDelays (eb.next).2 r

theorem retryGo_delays_pre {ε α : Type} (action : Nat → Except ε α) :
    ∀ (remaining : Nat) (eb : ExponentialBackoff) (k : Nat),
      (retryGo action remaining eb k).delays <+: ebDelays eb remaining := by
  intro remaining
  induction remaining with
  | zero =>
    intro eb k
    rw [retryGo]
    cases action k with
    | ok a => exact ⟨[], rfl⟩
    | error e => exact ⟨[], rfl⟩
  | succ r ih =>
    intro eb k
    rw [retryGo]
    cases action k with
    | ok a => exact ⟨ebDelays eb (r + 1), rfl⟩
    | error e =>
      simp only [ebDelays, List.cons_prefix_cons]
      exact ⟨trivial, ih (eb.next).2 (k + 1)⟩

theorem launchRetry_delays_within {ε α : Type} (action : Nat → Except ε α) :
    (launchRetry action).delays <+: [500, 10000, 10000, 10000, 10000] := by
  have h := retryGo_delays_pre action 5 defaultStrategy 0
  have he : ebDelays defaultStrategy 5 = [500, 10000, 10000, 10000, 10000] := by decide
  rw [he] at h
  exact h

/-- A `nessus6.js` body of the shape the Nessus server actually serves:
the token value is the third `"`-separated piece of the fragment that
follows the `key:"` delimiter. -/
def goodBody : List Char := "xkey:\"getApiToken\",value\"ABC123\"tail".data

/-- A batch environment in which authentication succeeds, scan 8 always
receives HTTP 500, every other scan receives HTTP 200 at once, and the
spawned task of scan 11 fails to join. -/
def env1 : BatchEnv :=
  { fetchBody := Except.ok goodBody
    login := fun _ => Except.ok "SESS".data
    response := fun scan_id _ => if scan_id = 8 then Except.ok 500 else Except.ok 200
    fate := fun scan_id => if scan_id = 11 then TaskFate.aborts "task cancelled"
      else TaskFate.completes }

/-- A batch environment whose token fetch fails at the transport level. -/
def envFetchFail : BatchEnv :=
  { fetchBody := Except.error "connection refused"
    login := fun _ => Except.ok "SESS".data
    response := fun _ _ => Except.ok 200
    fate := fun _ => TaskFate.completes }

/-- A batch environment whose login fails after a successful token
fetch. -/
def envLoginFail : BatchEnv :=
  { fetchBody := Except.ok goodBody
    login := fun _ => Except.error (NessusError.Other "missing token field in session response")
    response := fun _ _ => Except.ok 200
    fate := fun _ => TaskFate.completes }

theorem launch_scans_parallel_ok_eq (env : BatchEnv) (scan_ids : List Nat)
    (hne : scan_ids ≠ []) (tok sess : List Char)
    (hf : fetchApiToken env = Except.ok tok) (hl : env.login tok = Except.ok sess) :
    launch_scans_parallel env scan_ids =
      (Except.ok (), Event.fetchToken :: Event.login ::
        (scan_ids.map (scanTaskEvents env tok (cookiePrefix ++ sess))).flatten) := by
  have hne' : scan_ids.isEmpty = false := by
    cases scan_ids with
    | nil => exact absurd rfl hne
    | cons a l => rfl
  simp [launch_scans_parallel, hne', hf, hl]

theorem scanTaskEvents_shape (env : BatchEnv) (tok cookie : List Char) (id : Nat) :
    ∀ ev ∈ scanTaskEvents env tok cookie id,
      (ev ≠ Event.fetchToken ∧ ev ≠ Event.login) ∧
      ∀ i k t c, ev = Event.launch i k t c → i = id ∧ t = tok ∧ c = cookie := by
  intro ev hev
  cases hfate : env.fate id with
  | aborts msg =>
    simp only [scanTaskEvents, hfate, List.mem_singleton] at hev
    subst hev
    exact ⟨⟨by simp, by simp⟩, by intro i k t c h; exact absurd h (by simp)⟩
  | completes =>
    simp only [scanTaskEvents, hfate, List.mem_append] at hev
    rcases hev with hev | hev
    · simp only [List.mem_map, List.mem_range] at hev
      obtain ⟨k, _, rfl⟩ := hev
      refine ⟨⟨by simp, by simp⟩, ?_⟩
      intro i k' t c h
      simp only [Event.launch.injEq] at h
      exact ⟨h.1.symm, h.2.2.1.symm, h.2.2.2.symm⟩
    · cases hres : (launchRetry (attemptOutcome env id)).result with
      | ok a =>
        rw [hres] at hev
        simp only [List.mem_singleton] at hev
        subst hev
        exact ⟨⟨by simp, by simp⟩, by intro i k t c h; exact absurd h (by simp)⟩
      | error e =>
        rw [hres] at hev
        simp only [List.mem_singleton] at hev
        subst hev
        exact ⟨⟨by simp, by simp⟩, by intro i k t c h; exact absurd h (by simp)⟩

/-! ### Claims about the retry wrapper (C1, C3) -/

/-- C1, counterexample: a launch operation that fails on every attempt
(here: every POST answered with HTTP 503) does not make 5 underlying
calls under the default policy — the `take(5)` budget counts retries
after the initial attempt, so a 6th call happens. -/
theorem retry_exhaustion_not_five_calls :
    (launchRetry (fun _ => launch_scan_once 8 503)).calls ≠ 5 := by decide

/-- C1, amended: for every launch operation that fails on every attempt,
the per-scan retry wrapper under the default policy performs exactly 6
underlying calls — the initial attempt plus the 5 retries granted by
`take(5)` — and no 7th call, and returns the failure observed on the 6th
call (after backoff waits of 500 ms and then 10 s). -/
theorem retry_exhaustion_six_calls (errs : Nat → NessusError) :
    launchRetry (fun k => (Except.error (errs k) : Except NessusError Unit)) =
      { result := Except.error (errs 5), calls := 6,
        delays := [500, 10000, 10000, 10000, 10000] } := rfl

/-- C3, counterexample: the delay waited after the 2nd failure is not
`min(500 ms * 2^(2-1), 10 s) = 1000 ms` — the strategy multiplies its
stored value by 500 (the `from_millis` base), not by 2, so the second
delay is already capped at 10 s. -/
theorem backoff_second_delay_not_doubled :
    (launchRetry (fun _ => launch_scan_once 8 503)).delays[1]?
      ≠ some (min (500 * 2 ^ (2 - 1)) 10000) := by decide

/-- C3, amended: for every launch operation and every retry attempt
`k ≥ 1`, the delay waited after the `k`-th failure equals
`min(500^k ms, 10 s)`: 500 ms after the first failure and 10 s after
every subsequent one. -/
theorem backoff_delay_schedule {α : Type} (action : Nat → Except NessusError α)
    (k : Nat) (hk : 1 ≤ k) (d : Nat)
    (hd : (launchRetry action).delays[k - 1]? = some d) :
    d = min (500 ^ k) 10000 := by
  obtain ⟨t, ht⟩ := launchRetry_delays_within action
  have hlt : k - 1 < (launchRetry action).delays.length := by
    rcases List.getElem?_eq_some_iff.1 hd with ⟨h, _⟩
    exact h
  have hlist : ([500, 10000, 10000, 10000, 10000] : List Nat)[k - 1]? = some d := by
    rw [← ht, List.getElem?_append_left hlt]
    exact hd
  have hk5 : k - 1 < 5 := by
    rcases List.getElem?_eq_some_iff.1 hlist with ⟨h, _⟩
    simpa using h
  have hk' : k ≤ 5 := by omega
  interval_cases k <;> simp_all <;> omega

/-- C3, witness: instantiating the amended schedule at the 2nd failure
of an always-failing operation gives the capped 10 s delay. -/
theorem backoff_delay_schedule_witness :
    (1 : Nat) ≤ 2 ∧
    (launchRetry (fun _ => launch_scan_once 8 503)).delays[2 - 1]? = some 10000 ∧
    (10000 : Nat) = min (500 ^ 2) 10000 :=
  ⟨by decide, by decide,
    backoff_delay_schedule (fun _ => launch_scan_once 8 503) 2 (by decide) 10000 (by decide)⟩

/-! ### Claim about a single launch attempt (C9) -/

/-- C9: for every scan id and every HTTP response status,
`launch_scan_once` succeeds exactly when the status is 2xx, and for any
other status it returns an error whose message carries both the scan id
and the observed status code. -/
theorem launch_once_status_check (scan_id status : Nat) :
    (launch_scan_once scan_id status = Except.ok () ↔ 200 ≤ status ∧ status < 300) ∧
    (¬ (200 ≤ status ∧ status < 300) →
      ∃ msg : String,
        launch_scan_once scan_id status = Except.error (NessusError.Other msg) ∧
        (toString scan_id).data <:+: msg.data ∧ (toString status).data <:+: msg.data) := by
  constructor
  · constructor
    · intro h
      by_contra hc
      simp [launch_scan_once, hc] at h
    · intro h
      simp [launch_scan_once, h]
  · intro h
    refine ⟨"Scan " ++ toString scan_id ++ " launch failed with status " ++ toString status,
      by simp [launch_scan_once, h], ?_, ?_⟩
    · simp only [String.data_append]
      exact ⟨"Scan ".data, " launch failed with status ".data ++ (toString status).data,
        by simp⟩
    · simp only [String.data_append]
      exact ⟨"Scan ".data ++ (toString scan_id).data ++ " launch failed with status ".data,
        [], by simp⟩

/-- C9, witness: status 404 for scan 5. -/
theorem launch_once_status_check_witness :
    ¬ ((200 : Nat) ≤ 404 ∧ (404 : Nat) < 300) ∧
    ∃ msg : String,
      launch_scan_once 5 404 = Except.error (NessusError.Other msg) ∧
      (toString (5 : Nat)).data <:+: msg.data ∧ (toString (404 : Nat)).data <:+: msg.data :=
  ⟨by decide, (launch_once_status_check 5 404).2 (by decide)⟩

/-! ### Claim about the empty batch (C6) -/

/-- C6: on the empty list of scan ids, `launch_scans_parallel` returns
success and its event trace contains no network call of any kind — no
token fetch, no login, no launch. -/
theorem empty_batch_noop (env : BatchEnv) :
    (launch_scans_parallel env []).1 = Except.ok () ∧
    (launch_scans_parallel env []).2.filter Event.isNetwork = [] :=
  ⟨rfl, rfl⟩

/-! ### Claims about token extraction (C4, C5, C10) -/

/-- Modelled from the spec: the parsing algorithm of §4.1 exactly as the
specification words it — split the body on the literal delimiter `:"`,
scan the resulting fragments for one containing the literal substring
`getApiToken`, split that fragment further on the `"` character; the
token is the element at index 2 of that split, and extraction fails
(with a ParseError) exactly when no fragment contains `getApiToken` or
when the secondary split yields fewer than three elements. -/
def specExtract (body : List Char) : Option (List Char) :=
  match (rustSplit [':', '"'] body).find? (fun s => containsSeq apiTokenPat s) with
  | none => none
  | some frag =>
    let pieces := rustSplit ['"'] frag
    if pieces.length < 3 then none else some (pieces.getD 2 [])

/-- C5: `get_x_api_token` computes exactly what the specification's
step-by-step algorithm (`specExtract`) prescribes: the successful
results coincide, and it fails — always with a ParseError-class
`NessusError::Other` — exactly when the spec's algorithm has no
result. -/
theorem token_extraction_matches_spec (body : List Char) :
    (∀ tok, get_x_api_token body = Except.ok tok ↔ specExtract body = some tok) ∧
    ((∃ msg, get_x_api_token body = Except.error (NessusError.Other msg)) ↔
      specExtract body = none) := by
  unfold get_x_api_token specExtract
  cases hf : (rustSplit [':', '"'] body).find? (fun s => containsSeq apiTokenPat s) with
  | none => simp [hf]
  | some frag =>
    by_cases hlen : (rustSplit ['"'] frag).length < 3
    · simp [hf, hlen]
    · have h2 : 2 < (rustSplit ['"'] frag).length := by omega
      simp [hf, hlen, List.getD_eq_getElem?_getD, List.getElem?_eq_getElem h2]

/-- C10: when the `:"`-split of the body has several fragments
containing `getApiToken`, extraction is determined by the first such
fragment in order of appearance — the fragments after it (`bs`), whether
they match or not, never influence the result. -/
theorem extraction_uses_first_matching_fragment (body frag : List Char)
    (as bs : List (List Char))
    (hsplit : rustSplit [':', '"'] body = as ++ frag :: bs)
    (hfrag : containsSeq apiTokenPat frag = true)
    (hbefore : ∀ g ∈ as, containsSeq apiTokenPat g = false) :
    get_x_api_token body =
      (if h : (rustSplit ['"'] frag).length < 3 then
        Except.error (NessusError.Other "Unexpected format while parsing X-API token")
      else Except.ok ((rustSplit ['"'] frag).get ⟨2, by omega⟩)) := by
  have hfind : (rustSplit [':', '"'] body).find? (fun s => containsSeq apiTokenPat s)
      = some frag := by
    rw [hsplit, List.find?_append]
    have h1 : as.find? (fun s => containsSeq apiTokenPat s) = none :=
      List.find?_eq_none.mpr (by intro x hx; simp [hbefore x hx])
    rw [h1, Option.none_or, List.find?_cons_of_pos _ hfrag]
  simp only [get_x_api_token, hfind]

/-- C10, witness: a body whose `:"`-split contains two fragments with
`getApiToken`; the result is read off the first one (giving "2", not the
"8" the second fragment would give). -/
theorem extraction_uses_first_matching_fragment_witness :
    rustSplit [':', '"'] "a:\"getApiToken\"1\"2\"x:\"getApiToken\"9\"8\"".data
      = ["a".data, "getApiToken\"1\"2\"x".data, "getApiToken\"9\"8\"".data] ∧
    containsSeq apiTokenPat "getApiToken\"9\"8\"".data = true ∧
    get_x_api_token "a:\"getApiToken\"1\"2\"x:\"getApiToken\"9\"8\"".data
      = Except.ok "2".data := by
  refine ⟨by decide, by decide, ?_⟩
  have h := extraction_uses_first_matching_fragment
    "a:\"getApiToken\"1\"2\"x:\"getApiToken\"9\"8\"".data
    "getApiToken\"1\"2\"x".data
    ["a".data] ["getApiToken\"9\"8\"".data]
    (by decide) (by decide) (by decide)
  rw [h]
  decide

/-- C4, counterexample: on a body of exactly the shape the claim
describes — `...getApiToken:"ABC123",...` — extraction does not return
"ABC123"; the fragment found is the one ending in `getApiToken` (the
`:"` delimiter is consumed by the split), it contains no `"` character,
so the secondary split has a single element and extraction fails. -/
theorem token_extraction_spec_shape_fails :
    get_x_api_token "var a=1;getApiToken:\"ABC123\",b=2;".data ≠ Except.ok "ABC123".data ∧
    get_x_api_token "var a=1;getApiToken:\"ABC123\",b=2;".data
      = Except.error (NessusError.Other "Unexpected format while parsing X-API token") := by
  constructor <;> decide

/-- C4, amended: on a body of the shape the scanner actually serves —
the token value being the third `"`-separated piece of the fragment that
follows a `:"` delimiter, as in `...key:"getApiToken",value..."ABC123"...` —
extraction returns "ABC123" (on the claim's literal shape
`...getApiToken:"ABC123",...` it instead fails with a ParseError); and
on every body that nowhere contains the substring `getApiToken`,
extraction fails with the ParseError-class error
`getApiToken not found in nessus6.js`. -/
theorem token_extraction_amended :
    get_x_api_token goodBody = Except.ok "ABC123".data ∧
    ∀ body : List Char, containsSeq apiTokenPat body = false →
      get_x_api_token body
        = Except.error (NessusError.Other "getApiToken not found in nessus6.js") := by
  constructor
  · decide
  · intro body hb
    have hfind : (rustSplit [':', '"'] body).find? (fun s => containsSeq apiTokenPat s)
        = none := by
      rw [List.find?_eq_none]
      intro frag hfrag
      simp only [Bool.not_eq_true]
      by_contra hc
      simp only [Bool.not_eq_false] at hc
      have h1 : apiTokenPat <:+: frag := (containsSeq_iff apiTokenPat frag).1 hc
      have h2 : frag <:+: body :=
        rustSplit_frag_within ':' ['"'] body.length body frag (Nat.le_refl _) hfrag
      have : containsSeq apiTokenPat body = true :=
        (containsSeq_iff apiTokenPat body).2 (h1.trans h2)
      rw [hb] at this
      exact Bool.false_ne_true this
    simp [get_x_api_token, hfind]

/-- C4, witness: a body without `getApiToken` anywhere. -/
theorem token_extraction_amended_witness :
    containsSeq apiTokenPat "alert(1);no token here".data = false ∧
    get_x_api_token "alert(1);no token here".data
      = Except.error (NessusError.Other "getApiToken not found in nessus6.js") :=
  ⟨by decide, token_extraction_amended.2 "alert(1);no token here".data (by decide)⟩

/-! ### Claims about the batch orchestrator (C2, C7, C8) -/

/-- C8: on a non-empty list of scan ids, a failure of the token fetch or
of the login is returned verbatim to the caller and the fan-out never
starts — the event trace contains no launch POST for any scan id. -/
theorem auth_failure_fail_fast (env : BatchEnv) (scan_ids : List Nat)
    (hne : scan_ids ≠ []) :
    (∀ e, fetchApiToken env = Except.error e →
      (launch_scans_parallel env scan_ids).1 = Except.error e ∧
        ∀ ev ∈ (launch_scans_parallel env scan_ids).2, ev.isLaunch = false) ∧
    (∀ tok e, fetchApiToken env = Except.ok tok → env.login tok = Except.error e →
      (launch_scans_parallel env scan_ids).1 = Except.error e ∧
        ∀ ev ∈ (launch_scans_parallel env scan_ids).2, ev.isLaunch = false) := by
  have hne' : scan_ids.isEmpty = false := by
    cases scan_ids with
    | nil => exact absurd rfl hne
    | cons a l => rfl
  constructor
  · intro e he
    constructor
    · simp [launch_scans_parallel, hne', he]
    · intro ev hev
      simp [launch_scans_parallel, hne', he] at hev
      subst hev
      rfl
  · intro tok e hf hl
    constructor
    · simp [launch_scans_parallel, hne', hf, hl]
    · intro ev hev
      simp [launch_scans_parallel, hne', hf, hl] at hev
      rcases hev with rfl | rfl
      · rfl
      · rfl

/-- C8, witness: a transport failure of the token fetch aborts the batch
for scan list `[5]` with that very error. -/
theorem auth_failure_fail_fast_witness :
    ([5] : List Nat) ≠ [] ∧
    fetchApiToken envFetchFail = Except.error (NessusError.Http "connection refused") ∧
    (launch_scans_parallel envFetchFail [5]).1
      = Except.error (NessusError.Http "connection refused") :=
  ⟨by decide, rfl,
    ((auth_failure_fail_fast envFetchFail [5] (by decide)).1
      (NessusError.Http "connection refused") rfl).1⟩

/-- C2: on a non-empty list of scan ids, once token extraction and login
have succeeded, the batch call returns success whatever the individual
launch tasks do; a scan whose retries are exhausted is logged with its
terminal error, and a task that fails to join is logged with its join
error — neither is propagated as the batch call's result. -/
theorem batch_isolates_task_failures (env : BatchEnv) (scan_ids : List Nat)
    (hne : scan_ids ≠ []) (tok sess : List Char)
    (hf : fetchApiToken env = Except.ok tok) (hl : env.login tok = Except.ok sess) :
    (launch_scans_parallel env scan_ids).1 = Except.ok () ∧
    (∀ id ∈ scan_ids, ∀ msg, env.fate id = TaskFate.aborts msg →
      Event.logJoinError id msg ∈ (launch_scans_parallel env scan_ids).2) ∧
    (∀ id ∈ scan_ids, ∀ e, env.fate id = TaskFate.completes →
      (launchRetry (attemptOutcome env id)).result = Except.error e →
      Event.logFailure id e ∈ (launch_scans_parallel env scan_ids).2) := by
  rw [launch_scans_parallel_ok_eq env scan_ids hne tok sess hf hl]
  refine ⟨rfl, ?_, ?_⟩
  · intro id hid msg hmsg
    simp only [List.mem_cons]
    right; right
    refine List.mem_flatten_of_mem (List.mem_map_of_mem _ hid) ?_
    simp [scanTaskEvents, hmsg]
  · intro id hid e hfate herr
    simp only [List.mem_cons]
    right; right
    refine List.mem_flatten_of_mem (List.mem_map_of_mem _ hid) ?_
    simp [scanTaskEvents, hfate, herr]

/-- C2, witness: in `env1` with scans `[5, 8, 11]`, the batch returns
success although scan 8 exhausts its retries against HTTP 500 (logged
with the terminal `LaunchError`) and scan 11's task fails to join
(logged with the join error). -/
theorem batch_isolates_task_failures_witness :
    (launch_scans_parallel env1 [5, 8, 11]).1 = Except.ok () ∧
    Event.logJoinError 11 "task cancelled" ∈ (launch_scans_parallel env1 [5, 8, 11]).2 ∧
    Event.logFailure 8 (NessusError.Other "Scan 8 launch failed with status 500")
      ∈ (launch_scans_parallel env1 [5, 8, 11]).2 := by
  have h := batch_isolates_task_failures env1 [5, 8, 11] (by decide)
    "ABC123".data "SESS".data rfl rfl
  exact ⟨h.1, h.2.1 11 (by decide) "task cancelled" rfl,
    h.2.2 8 (by decide) (NessusError.Other "Scan 8 launch failed with status 500") rfl rfl⟩

/-- C7: on a non-empty list of scan ids whose authentication phase
succeeds, the batch performs exactly one token-fetch call and exactly
one login call — however many scan ids there are — and every launch POST
of every task carries exactly the one extracted API token and the one
cookie built from the session token; no task ever sees a different or
refreshed credential (in this embedding the credentials are immutable
values handed to every task). -/
theorem single_auth_shared_credentials (env : BatchEnv) (scan_ids : List Nat)
    (hne : scan_ids ≠ []) (tok sess : List Char)
    (hf : fetchApiToken env = Except.ok tok) (hl : env.login tok = Except.ok sess) :
    (launch_scans_parallel env scan_ids).2.count Event.fetchToken = 1 ∧
    (launch_scans_parallel env scan_ids).2.count Event.login = 1 ∧
    ∀ id k t c, Event.launch id k t c ∈ (launch_scans_parallel env scan_ids).2 →
      t = tok ∧ c = cookiePrefix ++ sess := by
  rw [launch_scans_parallel_ok_eq env scan_ids hne tok sess hf hl]
  have hshape : ∀ ev ∈ (scan_ids.map
      (scanTaskEvents env tok (cookiePrefix ++ sess))).flatten,
      (ev ≠ Event.fetchToken ∧ ev ≠ Event.login) ∧
      ∀ i k t c, ev = Event.launch i k t c →
        i ∈ scan_ids ∧ t = tok ∧ c = cookiePrefix ++ sess := by
    intro ev hev
    rw [List.mem_flatten] at hev
    obtain ⟨l, hl', hev⟩ := hev
    rw [List.mem_map] at hl'
    obtain ⟨id, hid, rfl⟩ := hl'
    have h := scanTaskEvents_shape env tok (cookiePrefix ++ sess) id ev hev
    exact ⟨h.1, fun i k t c hc => ⟨(h.2 i k t c hc).1 ▸ hid, (h.2 i k t c hc).2⟩⟩
  refine ⟨?_, ?_, ?_⟩
  · simp only [List.count_cons, List.count_eq_zero]
    have : Event.fetchToken ∉ (scan_ids.map
        (scanTaskEvents env tok (cookiePrefix ++ sess))).flatten := by
      intro hmem
      exact (hshape _ hmem).1.1 rfl
    simp [List.count_eq_zero.mpr this]
  · simp only [List.count_cons, List.count_eq_zero]
    have : Event.login ∉ (scan_ids.map
        (scanTaskEvents env tok (cookiePrefix ++ sess))).flatten := by
      intro hmem
      exact (hshape _ hmem).1.2 rfl
    simp [List.count_eq_zero.mpr this]
  · intro id k t c hmem
    simp only [List.mem_cons] at hmem
    rcases hmem with h | h | hmem
    · exact absurd h (by simp)
    · exact absurd h (by simp)
    · exact ((hshape _ hmem).2 id k t c rfl).2

/-- C7, witness: in `env1` with scans `[5, 8, 11]`, exactly one token
fetch and one login occur. -/
theorem single_auth_shared_credentials_witness :
    (launch_scans_parallel env1 [5, 8, 11]).2.count Event.fetchToken = 1 ∧
    (launch_scans_parallel env1 [5, 8, 11]).2.count Event.login = 1 :=
  ⟨(single_auth_shared_credentials env1 [5, 8, 11] (by decide)
      "ABC123".data "SESS".data rfl rfl).1,
   (single_auth_shared_credentials env1 [5, 8, 11] (by decide)
      "ABC123".data "SESS".data rfl rfl).2.1⟩

/-- A spec §8 sanity check, not tied to a claim: an operation failing the
first 2 attempts and succeeding on the 3rd makes exactly 3 underlying
calls and yields overall success. -/
theorem retry_three_calls_sanity :
    (launchRetry (fun k => if k < 2
        then (Except.error (NessusError.Other "boom") : Except NessusError Unit)
        else Except.ok ())).calls = 3 ∧
    (launchRetry (fun k => if k < 2
        then (Except.error (NessusError.Other "boom") : Except NessusError Unit)
        else Except.ok ())).result = Except.ok () := by
  constructor <;> decide

/-- C1, witness: the amended exhaustion count at a concrete error
sequence. -/
theorem retry_exhaustion_six_calls_witness :
    launchRetry (fun k => (Except.error
        ((fun _ => NessusError.Other "boom") k) : Except NessusError Unit)) =
      { result := Except.error (NessusError.Other "boom"), calls := 6,
        delays := [500, 10000, 10000, 10000, 10000] } :=
  retry_exhaustion_six_calls (fun _ => NessusError.Other "boom")

/-- C5, witness: code and spec algorithm agree on a served-shape body. -/
theorem token_extraction_matches_spec_witness :
    (get_x_api_token goodBody = Except.ok "ABC123".data ↔
      specExtract goodBody = some "ABC123".data) :=
  (token_extraction_matches_spec goodBody).1 "ABC123".data

/-- C6, witness: the empty batch in a concrete environment. -/
theorem empty_batch_noop_witness :
    (launch_scans_parallel env1 []).1 = Except.ok () ∧
    (launch_scans_parallel env1 []).2.filter Event.isNetwork = [] :=
  empty_batch_noop env1

end NessusLauncher
